import Mathlib

/-!
Verification of the tagged-item (lang item) resolution subsystem of
`crates/ra_hir/src/lang_item.rs`.

Shallow embedding choices:
* Opaque handles (`Enum`, `Function`, `Static`, `Struct`, `Trait`, impl ids,
  module ids, crate ids) are natural numbers.
* An attribute is modelled by the result of its `as_key_value()` projection:
  `some (key, value)` for a well-formed key/value attribute, `none` for a
  malformed one.
* The definition tree of a crate is an inductive tree `ModuleTree`: each node
  carries its module id, the implementation blocks declared directly in it
  (with their attribute lists, in declaration order) and its child modules in
  declaration order.  This bundles the external database queries
  `impls_in_module_with_source_map` and `Module::children` into the tree value.
* `FxHashMap<SmolStr, LangItemTarget>` together with the
  `entry(name).or_insert(target)` idiom is modelled by an association list with
  an insert-if-absent operation; lookup returns the unique entry for a key.
* The crate dependency graph is a function `dependencies : Nat → List Nat`
  (declared order).  `lang_item_lookup` recurses over this graph without any
  cycle guard, so the embedding threads an explicit fuel parameter: the outer
  `Option` is `none` exactly when the recursion depth exceeds the fuel,
  modelling the (possible) non-termination of the Rust original.
-/

namespace LangItem

/-- An attribute, modelled by the result of `Attr::as_key_value()`:
`some (key, value)` when the attribute is a well-formed key/value pair,
`none` when it is malformed. -/
structure Attr where
  as_key_value : Option (String × String)
deriving DecidableEq, Repr

/-- One implementation block as the walker sees it: its id within the module's
impl collection and its attribute list in declaration order. -/
structure ImplData where
  implId : Nat
  attrs : List Attr
deriving DecidableEq, Repr

/-- A module of a crate's definition tree: module id, the implementation
blocks declared directly in it (in declaration order), and its child modules
(in declaration order).  The tree is inductive, hence finite and acyclic by
construction, which is exactly the external invariant the Rust walker
assumes. -/
inductive ModuleTree where
  | mk : Nat → List ImplData → List ModuleTree → ModuleTree

def ModuleTree.modId : ModuleTree → Nat
  | .mk i _ _ => i

def ModuleTree.impls : ModuleTree → List ImplData
  | .mk _ is _ => is

def ModuleTree.children : ModuleTree → List ModuleTree
  | .mk _ _ cs => cs

/-- `ImplBlock`: as in `ImplBlock::from_id(module, impl_id)`, the handle packs
the module and the impl id. -/
structure ImplBlock where
  module : Nat
  implId : Nat
deriving DecidableEq, Repr

/-- `LangItemTarget`: the closed set of definition kinds that can carry a
lang attribute.  Handles are opaque numeric ids. -/
inductive LangItemTarget where
  | enumDef : Nat → LangItemTarget
  | function : Nat → LangItemTarget
  | implBlock : ImplBlock → LangItemTarget
  | staticDef : Nat → LangItemTarget
  | structDef : Nat → LangItemTarget
  | traitDef : Nat → LangItemTarget
deriving DecidableEq, Repr

/-- Is the target the implementation-block variant? -/
def LangItemTarget.isImplBlock : LangItemTarget → Bool
  | .implBlock _ => true
  | _ => false

/-- The external database: root module per crate, direct dependencies per
crate in declared order, the containing module of each definition kind, and
the (partial) module-to-crate mapping. -/
structure Db where
  rootModule : Nat → Option ModuleTree
  dependencies : Nat → List Nat
  enumModule : Nat → Nat
  functionModule : Nat → Nat
  staticModule : Nat → Nat
  structModule : Nat → Nat
  traitModule : Nat → Nat
  moduleKrate : Nat → Option Nat

/-- `LangItemTarget::krate`: dispatch on the variant, take the wrapped
definition's containing module, and ask the database for that module's
owning crate. -/
def LangItemTarget.krate (db : Db) : LangItemTarget → Option Nat
  | .enumDef e => db.moduleKrate (db.enumModule e)
  | .function f => db.moduleKrate (db.functionModule f)
  | .implBlock i => db.moduleKrate i.module
  | .staticDef s => db.moduleKrate (db.staticModule s)
  | .structDef s => db.moduleKrate (db.structModule s)
  | .traitDef t => db.moduleKrate (db.traitModule t)

/-- The containing module of the definition wrapped by a target (the
intermediate value `… .module(db)` of each arm of `krate`). -/
def LangItemTarget.containingModule (db : Db) : LangItemTarget → Nat
  | .enumDef e => db.enumModule e
  | .function f => db.functionModule f
  | .implBlock i => i.module
  | .staticDef s => db.staticModule s
  | .structDef s => db.structModule s
  | .traitDef t => db.traitModule t

/-- `LangItems`: the per-crate cache.  The `FxHashMap` is modelled by an
association list with unique keys (maintained by `insertIfAbsent`). -/
structure LangItems where
  items : List (String × LangItemTarget)
deriving DecidableEq, Repr

/-- Map lookup on the association list (`items.get(item)`). -/
def lookupItems (items : List (String × LangItemTarget)) (name : String) :
    Option LangItemTarget :=
  (items.find? fun p => p.1 == name).map Prod.snd

/-- `LangItems::target`: pure map lookup. -/
def LangItems.target (l : LangItems) (item : String) : Option LangItemTarget :=
  lookupItems l.items item

/-- `self.items.entry(name).or_insert(t)`: insert only when the key is
absent. -/
def insertIfAbsent (items : List (String × LangItemTarget)) (name : String)
    (t : LangItemTarget) : List (String × LangItemTarget) :=
  if items.any fun p => p.1 == name then items else items ++ [(name, t)]

/-- The attribute scan of the walker:
`attrs().filter_map(as_key_value).filter(key == "lang").map(val).nth(0)`. -/
def extractLangItemName (attrs : List Attr) : Option String :=
  ((((attrs.filterMap Attr.as_key_value).filter
      fun kv => kv.1 == "lang").map Prod.snd)).head?

/-- The per-module body of the walker: fold over the module's implementation
blocks in declaration order, registering a tag for each block whose attribute
scan yields a name. -/
def collectImpls (modId : Nat) (impls : List ImplData)
    (items : List (String × LangItemTarget)) : List (String × LangItemTarget) :=
  impls.foldl
    (fun acc d =>
      match extractLangItemName d.attrs with
      | some name => insertIfAbsent acc name (.implBlock ⟨modId, d.implId⟩)
      | none => acc)
    items

mutual

/-- `LangItems::collect_lang_items_recursive`: process the current module's
implementation blocks, then recurse into the children in declaration order. -/
def collect_lang_items_recursive : ModuleTree → List (String × LangItemTarget) →
    List (String × LangItemTarget)
  | .mk modId impls children, items =>
      collectChildren children (collectImpls modId impls items)

/-- The `for child in module.children(db)` loop of the walker. -/
def collectChildren : List ModuleTree → List (String × LangItemTarget) →
    List (String × LangItemTarget)
  | [], items => items
  | c :: cs, items => collectChildren cs (collect_lang_items_recursive c items)

end

/-- `LangItems::lang_items_query`: start from an empty cache; if the crate has
a root module, run the walker from it. -/
def lang_items_query (db : Db) (krate : Nat) : LangItems :=
  match db.rootModule krate with
  | some m => ⟨collect_lang_items_recursive m []⟩
  | none => ⟨[]⟩

/-- `db.lang_items(krate)`: the memoized query; memoization is owned by the
external engine, so in the embedding it is the query itself. -/
def Db.lang_items (db : Db) (krate : Nat) : LangItems :=
  lang_items_query db krate

/-- The `for dep in start_krate.dependencies(db)` loop of `lang_item_lookup`:
`resolve` is the recursive lookup applied to a dependency crate.  Return the
first dependency subtree hit, `some none` when the list is exhausted, and
propagate fuel exhaustion (`none`). -/
def lang_item_lookup_deps (resolve : Nat → Option (Option LangItemTarget)) :
    List Nat → Option (Option LangItemTarget)
  | [] => some none
  | dep :: deps =>
      match resolve dep with
      | none => none
      | some (some t) => some (some t)
      | some none => lang_item_lookup_deps resolve deps

/-- `lang_item_lookup`: look in the start crate's own cache; on a miss,
recurse into the direct dependencies in declared order and return the first
hit.  The Rust recursion has no cycle guard, so the embedding carries a fuel
parameter: the outer `Option` is `none` exactly when the recursion depth
exceeds the fuel (the inner `Option` is the Rust return value). -/
def lang_item_lookup (db : Db) : Nat → Nat → String →
    Option (Option LangItemTarget)
  | 0, _, _ => none
  | fuel + 1, start_krate, item =>
      match (db.lang_items start_krate).target item with
      | some t => some (some t)
      | none =>
          lang_item_lookup_deps (fun dep => lang_item_lookup db fuel dep item)
            (db.dependencies start_krate)

/-! ## Specification-side definitions used to state the claims -/

/-- The (tag name, target) pairs extracted from the implementation blocks
declared directly in one module, in declaration order. -/
def taggedOwn (modId : Nat) (impls : List ImplData) :
    List (String × LangItemTarget) :=
  impls.filterMap fun d =>
    (extractLangItemName d.attrs).map
      fun name => (name, LangItemTarget.implBlock ⟨modId, d.implId⟩)

mutual

/-- The traversal-order list of (tag name, target) pairs the walker extracts
from a tree: the current module's tagged blocks in declaration order, then the
children's, recursively. -/
def taggedItems : ModuleTree → List (String × LangItemTarget)
  | .mk modId impls children =>
      taggedOwn modId impls ++ taggedItemsList children

/-- `taggedItems` over a list of sibling subtrees. -/
def taggedItemsList : List ModuleTree → List (String × LangItemTarget)
  | [] => []
  | c :: cs => taggedItems c ++ taggedItemsList cs

end

mutual

/-- Depth of a module tree (number of levels). -/
def ModuleTree.depth : ModuleTree → Nat
  | .mk _ _ children => depthList children + 1

/-- Maximum depth over a list of sibling subtrees. -/
def depthList : List ModuleTree → Nat
  | [] => 0
  | c :: cs => max c.depth (depthList cs)

end

mutual

/-- The walker with an explicit recursion-depth budget: one unit of fuel is
consumed per module level.  `none` models exceeding the budget. -/
def collectFuel : Nat → ModuleTree → List (String × LangItemTarget) →
    Option (List (String × LangItemTarget))
  | 0, _, _ => none
  | fuel + 1, .mk modId impls children, items =>
      collectFuelList fuel children (collectImpls modId impls items)
termination_by fuel _ _ => (fuel, 0)

/-- Depth-budgeted walk over a list of sibling subtrees. -/
def collectFuelList : Nat → List ModuleTree →
    List (String × LangItemTarget) → Option (List (String × LangItemTarget))
  | _, [], items => some items
  | fuel, c :: cs, items =>
      match collectFuel fuel c items with
      | none => none
      | some items1 => collectFuelList fuel cs items1
termination_by fuel cs _ => (fuel, cs.length + 1)

end

/-- Crate `c` can reach crate `d` through the dependency graph (reflexive,
following declared dependencies transitively). -/
inductive Reachable (db : Db) : Nat → Nat → Prop
  | refl (c : Nat) : Reachable db c c
  | step {c d e : Nat} : d ∈ db.dependencies c → Reachable db d e →
      Reachable db c e

/-- Modelled from the spec: scan the attribute list for the first attribute
shaped as a well-formed key/value pair whose key equals the reserved marker
keyword "lang", and take its value as the tag name. -/
def specExtractTagName (attrs : List Attr) : Option String :=
  (attrs.find? fun a =>
    match a.as_key_value with
    | some (k, _) => k == "lang"
    | none => false).bind
    fun a => a.as_key_value.map Prod.snd

/-! ## Concrete fixtures -/

/-- A well-formed `#[lang = v]`-style attribute. -/
def langAttr (v : String) : Attr := ⟨some ("lang", v)⟩

/-- A well-formed key/value attribute whose key is not the marker. -/
def docAttr : Attr := ⟨some ("doc", "x")⟩

/-- A malformed attribute (no key/value reading). -/
def badAttr : Attr := ⟨none⟩

/-- Root module 0: impl 0 tagged "drop" (after a doc and a malformed
attribute), impl 1 tagged "drop" again (duplicate), impl 2 untagged; child
module 1: impl 0 tagged "drop" (second duplicate), impl 1 tagged "add". -/
def sampleTree : ModuleTree :=
  .mk 0
    [⟨0, [docAttr, badAttr, langAttr "drop"]⟩,
     ⟨1, [langAttr "drop"]⟩,
     ⟨2, [docAttr]⟩]
    [.mk 1 [⟨0, [langAttr "drop"]⟩, ⟨1, [langAttr "add"]⟩] []]

/-- A one-module tree with impl 0 tagged "owned" and impl 1 tagged "drop". -/
def ownedTree (mid : Nat) : ModuleTree :=
  .mk mid [⟨0, [langAttr "owned"]⟩, ⟨1, [langAttr "drop"]⟩] []

/-- A concrete database: crate 0 owns `sampleTree` and depends on crate 12;
crate 10 depends on [11, 12]; crate 11 depends on [13]; crate 20 depends on
[11]; crates 12 and 13 own `ownedTree` copies; every other crate has no root
module and no dependencies. -/
def sampleDb : Db where
  rootModule := fun k =>
    if k = 0 then some sampleTree
    else if k = 12 then some (ownedTree 12)
    else if k = 13 then some (ownedTree 13)
    else none
  dependencies := fun k =>
    if k = 10 then [11, 12]
    else if k = 11 then [13]
    else if k = 20 then [11]
    else if k = 0 then [12]
    else []
  enumModule := fun _ => 0
  functionModule := fun _ => 0
  staticModule := fun _ => 0
  structModule := fun _ => 0
  traitModule := fun _ => 0
  moduleKrate := fun _ => none

/-- `sampleDb` with all dependency lists erased (same definition trees). -/
def sampleDbNoDeps : Db :=
  { sampleDb with dependencies := fun _ => [] }

/-- A rank strictly decreasing along `sampleDb`'s dependency edges. -/
def sampleRank : Nat → Nat := fun k =>
  if k = 10 then 2 else if k = 20 then 2 else if k = 11 then 1
  else if k = 0 then 1 else 0

/-! ## Lookup lemmas for the association-list cache -/

theorem lookupItems_nil (name : String) : lookupItems [] name = none := rfl

theorem lookupItems_append (l1 l2 : List (String × LangItemTarget))
    (name : String) :
    lookupItems (l1 ++ l2) name
      = (lookupItems l1 name).or (lookupItems l2 name) := by
  simp [lookupItems, List.find?_append, Option.map_or']

theorem lookupItems_cons (n : String) (t : LangItemTarget)
    (l : List (String × LangItemTarget)) (name : String) :
    lookupItems ((n, t) :: l) name
      = (if name == n then some t else none).or (lookupItems l name) := by
  rcases eq_or_ne name n with h | h
  · subst h
    simp [lookupItems]
  · have hb : (n == name) = false := by
      simp [Ne.symm h]
    have hb2 : (name == n) = false := by
      simp [h]
    simp [lookupItems, hb, hb2]

theorem lookupItems_isSome_of_any (items : List (String × LangItemTarget))
    (n : String) (h : (items.any fun p => p.1 == n) = true) :
    (lookupItems items n).isSome := by
  simp only [lookupItems, Option.isSome_map']
  rw [List.find?_isSome]
  simpa using h

theorem lookupItems_insertIfAbsent (items : List (String × LangItemTarget))
    (n : String) (t : LangItemTarget) (name : String) :
    lookupItems (insertIfAbsent items n t) name
      = (lookupItems items name).or (if name == n then some t else none) := by
  unfold insertIfAbsent
  by_cases h : (items.any fun p => p.1 == n) = true
  · rw [if_pos h]
    rcases eq_or_ne name n with hn | hn
    · subst hn
      rw [Option.or_of_isSome (lookupItems_isSome_of_any items name h)]
    · have hb : (name == n) = false := by simp [hn]
      simp [hb]
  · rw [if_neg h, lookupItems_append, lookupItems_cons]
    rw [lookupItems_nil, Option.or_none]

theorem lookupItems_collectImpls (modId : Nat) (impls : List ImplData)
    (items : List (String × LangItemTarget)) (name : String) :
    lookupItems (collectImpls modId impls items) name
      = (lookupItems items name).or (lookupItems (taggedOwn modId impls) name) := by
  induction impls generalizing items with
  | nil =>
    simp [collectImpls, taggedOwn, lookupItems]
  | cons d rest ih =>
    cases hx : extractLangItemName d.attrs with
    | none =>
      have step : collectImpls modId (d :: rest) items
          = collectImpls modId rest items := by
        simp [collectImpls, hx]
      have town : taggedOwn modId (d :: rest) = taggedOwn modId rest := by
        simp [taggedOwn, List.filterMap_cons, hx]
      rw [step, ih, town]
    | some nm =>
      have step : collectImpls modId (d :: rest) items
          = collectImpls modId rest
              (insertIfAbsent items nm (.implBlock ⟨modId, d.implId⟩)) := by
        simp [collectImpls, hx]
      have town : taggedOwn modId (d :: rest)
          = (nm, LangItemTarget.implBlock ⟨modId, d.implId⟩)
              :: taggedOwn modId rest := by
        simp [taggedOwn, List.filterMap_cons, hx]
      rw [step, ih, lookupItems_insertIfAbsent, town, lookupItems_cons,
        Option.or_assoc]

mutual

theorem lookupItems_collect (m : ModuleTree)
    (items : List (String × LangItemTarget)) (name : String) :
    lookupItems (collect_lang_items_recursive m items) name
      = (lookupItems items name).or (lookupItems (taggedItems m) name) := by
  match m with
  | .mk modId impls children =>
    rw [collect_lang_items_recursive, taggedItems,
      lookupItems_collectChildren children _ name, lookupItems_collectImpls,
      lookupItems_append, Option.or_assoc]
termination_by (sizeOf m, 0)

theorem lookupItems_collectChildren (cs : List ModuleTree)
    (items : List (String × LangItemTarget)) (name : String) :
    lookupItems (collectChildren cs items) name
      = (lookupItems items name).or (lookupItems (taggedItemsList cs) name) := by
  match cs with
  | [] =>
    rw [collectChildren, taggedItemsList, lookupItems_nil, Option.or_none]
  | c :: rest =>
    rw [collectChildren, lookupItems_collectChildren rest _ name,
      lookupItems_collect c items name, taggedItemsList, lookupItems_append,
      Option.or_assoc]
termination_by (sizeOf cs, 1)

end

/-- The attribute scan agrees with its specification reading: take the first
well-formed key/value attribute whose key is "lang". -/
theorem extractLangItemName_eq_spec (attrs : List Attr) :
    extractLangItemName attrs = specExtractTagName attrs := by
  induction attrs with
  | nil => rfl
  | cons a rest ih =>
    cases hkv : a.as_key_value with
    | none =>
      simp only [extractLangItemName, specExtractTagName, List.filterMap_cons,
        hkv] at ih ⊢
      rw [List.find?_cons_of_neg _ (by simp [hkv])]
      exact ih
    | some kv =>
      obtain ⟨k, v⟩ := kv
      by_cases hk : (k == "lang") = true
      · simp only [extractLangItemName, specExtractTagName,
          List.filterMap_cons, hkv, List.filter_cons, hk, if_true]
        rw [List.find?_cons_of_pos _ (by simp [hkv, hk])]
        simp [hkv]
      · rw [Bool.not_eq_true] at hk
        simp only [extractLangItemName, specExtractTagName,
          List.filterMap_cons, hkv, List.filter_cons, hk,
          Bool.false_eq_true, if_false] at ih ⊢
        rw [List.find?_cons_of_neg _ (by simp [hkv, hk])]
        exact ih

/-! ## Fuel adequacy for the walker -/

mutual

theorem collectFuel_adequate (fuel : Nat) (m : ModuleTree)
    (items : List (String × LangItemTarget)) (h : m.depth ≤ fuel) :
    collectFuel fuel m items = some (collect_lang_items_recursive m items) := by
  match fuel, m with
  | 0, m =>
    exact absurd h (by cases m with | mk _ _ cs => simp [ModuleTree.depth])
  | fuel + 1, .mk modId impls children =>
    rw [collectFuel, collect_lang_items_recursive]
    exact collectFuelList_adequate fuel children _
      (by rw [ModuleTree.depth] at h; omega)
termination_by (sizeOf m, 0)

theorem collectFuelList_adequate (fuel : Nat) (cs : List ModuleTree)
    (items : List (String × LangItemTarget)) (h : depthList cs ≤ fuel) :
    collectFuelList fuel cs items = some (collectChildren cs items) := by
  match cs with
  | [] => rw [collectFuelList, collectChildren]
  | c :: rest =>
    rw [collectFuelList, collectChildren,
      collectFuel_adequate fuel c items (by rw [depthList] at h; omega)]
    exact collectFuelList_adequate fuel rest _ (by rw [depthList] at h; omega)
termination_by (sizeOf cs, 1)

end

/-! ## Fuel adequacy for the resolver -/

theorem lang_item_lookup_deps_isSome
    (resolve : Nat → Option (Option LangItemTarget)) (ds : List Nat)
    (h : ∀ d ∈ ds, (resolve d).isSome = true) :
    (lang_item_lookup_deps resolve ds).isSome = true := by
  induction ds with
  | nil => rfl
  | cons d rest ih =>
    rw [lang_item_lookup_deps]
    cases hx : resolve d with
    | none =>
      have := h d (by simp)
      rw [hx] at this
      exact absurd this (by simp)
    | some r =>
      cases r with
      | some t => rfl
      | none => exact ih fun d' hd' => h d' (by simp [hd'])

theorem lang_item_lookup_deps_all_none
    (resolve : Nat → Option (Option LangItemTarget)) (ds : List Nat)
    (h : ∀ d ∈ ds, resolve d = some none) :
    lang_item_lookup_deps resolve ds = some none := by
  induction ds with
  | nil => rfl
  | cons d rest ih =>
    rw [lang_item_lookup_deps, h d (by simp)]
    exact ih fun d' hd' => h d' (by simp [hd'])

/-- Given a rank function strictly decreasing along dependency edges (i.e. an
upper bound on the length of dependency chains), any fuel above the start
crate's rank suffices: the recursion terminates with a definite result. -/
theorem lang_item_lookup_isSome_of_rank (db : Db) (rank : Nat → Nat)
    (hr : ∀ c d, d ∈ db.dependencies c → rank d < rank c) :
    ∀ fuel U T, rank U < fuel → (lang_item_lookup db fuel U T).isSome = true := by
  intro fuel
  induction fuel with
  | zero => intro U T h; exact absurd h (by omega)
  | succ n ih =>
    intro U T _h
    rw [lang_item_lookup]
    cases hloc : (db.lang_items U).target T with
    | some t => rfl
    | none =>
      exact lang_item_lookup_deps_isSome _ _
        fun d hd => ih d T (by have := hr U d hd; omega)

/-- If the tag name is absent from the cache of every crate reachable from
the start crate, the lookup returns the empty result (given enough fuel for
the acyclic dependency graph). -/
theorem lang_item_lookup_absent_eq_none (db : Db) (rank : Nat → Nat)
    (T : String) (hr : ∀ c d, d ∈ db.dependencies c → rank d < rank c) :
    ∀ fuel U, rank U < fuel →
      (∀ c, Reachable db U c → (db.lang_items c).target T = none) →
      lang_item_lookup db fuel U T = some none := by
  intro fuel
  induction fuel with
  | zero => intro U h; exact absurd h (by omega)
  | succ n ih =>
    intro U hU habs
    rw [lang_item_lookup, habs U (Reachable.refl U)]
    exact lang_item_lookup_deps_all_none _ _
      fun d hd =>
        ih d (by have := hr U d hd; omega)
          fun c hc => habs c (Reachable.step hd hc)

/-! ## Invariant: every stored target is the impl-block variant -/

theorem all_implBlock_insertIfAbsent (items : List (String × LangItemTarget))
    (n : String) (b : ImplBlock)
    (h : (items.all fun p => p.2.isImplBlock) = true) :
    ((insertIfAbsent items n (.implBlock b)).all
      fun p => p.2.isImplBlock) = true := by
  unfold insertIfAbsent
  split
  · exact h
  · simp only [List.all_append, h, Bool.true_and, List.all_cons, List.all_nil]
    rfl

theorem all_implBlock_collectImpls (modId : Nat) (impls : List ImplData)
    (items : List (String × LangItemTarget))
    (h : (items.all fun p => p.2.isImplBlock) = true) :
    ((collectImpls modId impls items).all fun p => p.2.isImplBlock) = true := by
  induction impls generalizing items with
  | nil => simpa [collectImpls] using h
  | cons d rest ih =>
    cases hx : extractLangItemName d.attrs with
    | none =>
      have step : collectImpls modId (d :: rest) items
          = collectImpls modId rest items := by
        simp [collectImpls, hx]
      rw [step]
      exact ih items h
    | some nm =>
      have step : collectImpls modId (d :: rest) items
          = collectImpls modId rest
              (insertIfAbsent items nm (.implBlock ⟨modId, d.implId⟩)) := by
        simp [collectImpls, hx]
      rw [step]
      exact ih _ (all_implBlock_insertIfAbsent items nm _ h)

mutual

theorem all_implBlock_collect (m : ModuleTree)
    (items : List (String × LangItemTarget))
    (h : (items.all fun p => p.2.isImplBlock) = true) :
    ((collect_lang_items_recursive m items).all
      fun p => p.2.isImplBlock) = true := by
  match m with
  | .mk modId impls children =>
    rw [collect_lang_items_recursive]
    exact all_implBlock_collectChildren children _
      (all_implBlock_collectImpls modId impls items h)
termination_by (sizeOf m, 0)

theorem all_implBlock_collectChildren (cs : List ModuleTree)
    (items : List (String × LangItemTarget))
    (h : (items.all fun p => p.2.isImplBlock) = true) :
    ((collectChildren cs items).all fun p => p.2.isImplBlock) = true := by
  match cs with
  | [] => rw [collectChildren]; exact h
  | c :: rest =>
    rw [collectChildren]
    exact all_implBlock_collectChildren rest _ (all_implBlock_collect c items h)
termination_by (sizeOf cs, 1)

end

/-! ## Claim theorems -/

/-- C1: if the start crate's own cache has an entry for the tag name, the
lookup returns that local target immediately, for every dependency
configuration (the database, hence the dependency lists and all dependency
caches, is universally quantified). -/
theorem local_entry_shadows_dependencies (db : Db) (fuel U : Nat) (T : String)
    (t : LangItemTarget) (h : (db.lang_items U).target T = some t) :
    lang_item_lookup db (fuel + 1) U T = some (some t) := by
  rw [lang_item_lookup, h]

/-- C3: the cache built by the walker maps each tag name to the first
(name, target) pair carrying that name in traversal order (current module's
blocks in declaration order before the child modules'); any later
registration of the same name is discarded, since `lookupItems` returns the
first occurrence of the name in the traversal list. -/
theorem cache_entry_is_first_in_traversal_order (db : Db) (krate : Nat)
    (name : String) :
    (lang_items_query db krate).target name
      = (match db.rootModule krate with
          | some m => lookupItems (taggedItems m) name
          | none => none) := by
  unfold lang_items_query
  cases h : db.rootModule krate with
  | none => rfl
  | some m =>
    show lookupItems (collect_lang_items_recursive m []) name = _
    rw [lookupItems_collect, lookupItems_nil, Option.none_or]

/-- C4: the tag name extracted from a block's attribute list is the value of
the first well-formed key/value attribute whose key is the marker "lang"
(first conjunct, refinement against the spec-worded scan); a malformed
attribute is skipped (second conjunct); and a block whose scan yields no name
leaves the cache untouched (third conjunct). -/
theorem attribute_scan_first_lang_key_value
    : (∀ attrs : List Attr, extractLangItemName attrs = specExtractTagName attrs)
    ∧ (∀ (a : Attr) (attrs : List Attr), a.as_key_value = none →
        extractLangItemName (a :: attrs) = extractLangItemName attrs)
    ∧ (∀ (modId : Nat) (d : ImplData) (rest : List ImplData)
        (items : List (String × LangItemTarget)),
        extractLangItemName d.attrs = none →
        collectImpls modId (d :: rest) items = collectImpls modId rest items) := by
  refine ⟨extractLangItemName_eq_spec, ?_, ?_⟩
  · intro a attrs hkv
    simp [extractLangItemName, List.filterMap_cons, hkv]
  · intro modId d rest items hx
    simp [collectImpls, hx]

/-- C2: on a local miss the dependencies are searched depth-first in declared
order.  First conjunct: with dependencies [D1, D2], whenever the recursive
lookup on D1 (i.e. the search of D1's whole transitive subtree) yields a
target, that target is the overall result — whatever D2's subtree registers.
Second conjunct (transitive reach): with U depending only on D1 and D1 only
on D2, a name registered in D2's own cache is found from U. -/
theorem dependency_search_depth_first_declared_order
    : (∀ (db : Db) (fuel U D1 D2 : Nat) (T : String) (t1 : LangItemTarget),
        (db.lang_items U).target T = none →
        db.dependencies U = [D1, D2] →
        lang_item_lookup db fuel D1 T = some (some t1) →
        lang_item_lookup db (fuel + 1) U T = some (some t1))
    ∧ (∀ (db : Db) (fuel U D1 D2 : Nat) (T : String) (t : LangItemTarget),
        (db.lang_items U).target T = none →
        db.dependencies U = [D1] →
        (db.lang_items D1).target T = none →
        db.dependencies D1 = [D2] →
        (db.lang_items D2).target T = some t →
        lang_item_lookup db (fuel + 3) U T = some (some t)) := by
  constructor
  · intro db fuel U D1 D2 T t1 hloc hdep h1
    rw [lang_item_lookup, hloc, hdep, lang_item_lookup_deps]
    simp only [h1]
  · intro db fuel U D1 D2 T t hlocU hdepU hlocD1 hdepD1 hlocD2
    have h2 : lang_item_lookup db (fuel + 1) D2 T = some (some t) := by
      rw [lang_item_lookup, hlocD2]
    have h1 : lang_item_lookup db ((fuel + 1) + 1) D1 T = some (some t) := by
      rw [lang_item_lookup, hlocD1, hdepD1, lang_item_lookup_deps]
      simp only [h2]
    show lang_item_lookup db (((fuel + 1) + 1) + 1) U T = some (some t)
    rw [lang_item_lookup, hlocU, hdepU, lang_item_lookup_deps]
    simp only [h1]

/-- C5: every target stored by the collector is the implementation-block
variant; the other five variants are never produced. -/
theorem cache_targets_are_impl_blocks (db : Db) (U : Nat) :
    ((lang_items_query db U).items.all fun p => p.2.isImplBlock) = true := by
  unfold lang_items_query
  cases db.rootModule U with
  | none => rfl
  | some m => exact all_implBlock_collect m [] rfl

/-- C6: the only outcome besides success is the empty result.  First
conjunct: a crate with no dependencies and no local entry yields the empty
result.  Second conjunct: a name absent from the caches of every crate
reachable through the (acyclic, ranked) dependency graph yields the empty
result — not a distinct error value, as the result type `Option` has no
other constructor. -/
theorem not_found_is_empty_result
    : (∀ (db : Db) (U fuel : Nat) (T : String),
        db.dependencies U = [] →
        (db.lang_items U).target T = none →
        lang_item_lookup db (fuel + 1) U T = some none)
    ∧ (∀ (db : Db) (rank : Nat → Nat) (fuel U : Nat) (T : String),
        (∀ c d, d ∈ db.dependencies c → rank d < rank c) →
        rank U < fuel →
        (∀ c, Reachable db U c → (db.lang_items c).target T = none) →
        lang_item_lookup db fuel U T = some none) := by
  constructor
  · intro db U fuel T hdep hloc
    rw [lang_item_lookup, hloc, hdep, lang_item_lookup_deps]
  · intro db rank fuel U T hr hU habs
    exact lang_item_lookup_absent_eq_none db rank T hr fuel U hU habs

/-- C8: both recursions terminate under the acyclicity preconditions.  First
conjunct: the walker completes within any recursion-depth budget at least the
module-tree depth.  Second conjunct: the resolver completes (returns a
definite result) within any budget exceeding a rank that strictly decreases
along dependency edges, i.e. any bound on the longest dependency chain. -/
theorem recursions_terminate_under_acyclicity
    : (∀ (fuel : Nat) (m : ModuleTree) (items : List (String × LangItemTarget)),
        m.depth ≤ fuel →
        collectFuel fuel m items = some (collect_lang_items_recursive m items))
    ∧ (∀ (db : Db) (rank : Nat → Nat),
        (∀ c d, d ∈ db.dependencies c → rank d < rank c) →
        ∀ fuel U (T : String), rank U < fuel →
          (lang_item_lookup db fuel U T).isSome = true) :=
  ⟨collectFuel_adequate, lang_item_lookup_isSome_of_rank⟩

/-- C7: a crate with no root module gets the empty cache, and the query is a
total function (construction always succeeds). -/
theorem no_root_module_empty_cache (db : Db) (U : Nat)
    (h : db.rootModule U = none) :
    lang_items_query db U = ⟨[]⟩ := by
  unfold lang_items_query
  rw [h]

/-- C9: `krate` dispatches on the active variant, takes the containing module
of the wrapped definition, and returns that module's owning crate; the result
is empty exactly when the module-to-crate mapping is undefined for that
module. -/
theorem owning_unit_via_containing_module (db : Db) (t : LangItemTarget) :
    t.krate db = db.moduleKrate (t.containingModule db)
    ∧ (t.krate db = none ↔ db.moduleKrate (t.containingModule db) = none) := by
  cases t <;> exact ⟨rfl, Iff.rfl⟩

/-- C10: the per-crate cache depends only on the crate's own definition tree
(the `ModuleTree` bundles the root module, the module children, the
implementation blocks and their attributes): two database states agreeing on
a crate's root tree produce equal caches, whatever their dependency lists or
other crates' contents. -/
theorem cache_depends_only_on_own_tree (db1 db2 : Db) (U : Nat)
    (h : db1.rootModule U = db2.rootModule U) :
    lang_items_query db1 U = lang_items_query db2 U := by
  unfold lang_items_query
  rw [h]

/-! ## Helper facts about the fixtures -/

theorem sampleRank_decreasing :
    ∀ c d, d ∈ sampleDb.dependencies c → sampleRank d < sampleRank c := by
  intro c d hd
  by_cases h10 : c = 10
  · subst h10
    simp only [sampleDb] at hd
    norm_num at hd
    rcases hd with h | h <;> simp [sampleRank, h]
  · by_cases h11 : c = 11
    · subst h11
      simp only [sampleDb] at hd
      norm_num at hd
      simp [sampleRank, hd]
    · by_cases h20 : c = 20
      · subst h20
        simp only [sampleDb] at hd
        norm_num at hd
        simp [sampleRank, hd]
      · by_cases h0 : c = 0
        · subst h0
          simp only [sampleDb] at hd
          norm_num at hd
          simp [sampleRank, hd]
        · simp only [sampleDb] at hd
          simp [h10, h11, h20, h0] at hd

theorem sampleDb_missing_absent (c : Nat) :
    (sampleDb.lang_items c).target "missing" = none := by
  by_cases h0 : c = 0
  · subst h0; decide
  · by_cases h12 : c = 12
    · subst h12; decide
    · by_cases h13 : c = 13
      · subst h13; decide
      · have hroot : sampleDb.rootModule c = none := by
          simp [sampleDb, h0, h12, h13]
        unfold Db.lang_items lang_items_query
        rw [hroot]
        rfl

/-! ## Witnesses -/

/-- C1 witness: crate 0 registers "drop" locally (module 0, impl 0) while its
dependency crate 12 also registers "drop"; the lookup returns the local
target. -/
theorem local_entry_shadows_dependencies_witness :
    lang_item_lookup sampleDb 1 0 "drop"
      = some (some (LangItemTarget.implBlock ⟨0, 0⟩)) :=
  local_entry_shadows_dependencies sampleDb 0 0 "drop"
    (LangItemTarget.implBlock ⟨0, 0⟩) (by decide)

/-- C2 witness: from crate 10 (deps [11, 12]), "owned" — defined both in 11's
subtree (crate 13) and in 12 — resolves to the target from 13, the first
dependency's subtree; and from crate 20 (20 → 11 → 13), "owned", defined only
past the direct dependency, is still found. -/
theorem dependency_search_depth_first_declared_order_witness :
    lang_item_lookup sampleDb 3 10 "owned"
        = some (some (LangItemTarget.implBlock ⟨13, 0⟩))
    ∧ lang_item_lookup sampleDb 3 20 "owned"
        = some (some (LangItemTarget.implBlock ⟨13, 0⟩)) :=
  ⟨dependency_search_depth_first_declared_order.1 sampleDb 2 10 11 12 "owned"
      (LangItemTarget.implBlock ⟨13, 0⟩) (by decide) (by decide) (by decide),
   dependency_search_depth_first_declared_order.2 sampleDb 0 20 11 13 "owned"
      (LangItemTarget.implBlock ⟨13, 0⟩) (by decide) (by decide) (by decide)
      (by decide) (by decide)⟩

/-- C4 witness: a malformed attribute is skipped, and a block with no "lang"
key/value attribute leaves the cache untouched. -/
theorem attribute_scan_first_lang_key_value_witness :
    extractLangItemName [badAttr, langAttr "x"]
        = extractLangItemName [langAttr "x"]
    ∧ collectImpls 0 [⟨2, [docAttr]⟩] [] = collectImpls 0 [] [] :=
  ⟨attribute_scan_first_lang_key_value.2.1 badAttr [langAttr "x"] rfl,
   attribute_scan_first_lang_key_value.2.2 0 ⟨2, [docAttr]⟩ [] [] (by decide)⟩

/-- C6 witness: crate 30 (no deps, no local entry) yields the empty result,
and "missing", absent from every reachable cache, yields the empty result
from crate 10. -/
theorem not_found_is_empty_result_witness :
    lang_item_lookup sampleDb 1 30 "drop" = some none
    ∧ lang_item_lookup sampleDb 3 10 "missing" = some none :=
  ⟨not_found_is_empty_result.1 sampleDb 30 0 "drop" (by decide) (by decide),
   not_found_is_empty_result.2 sampleDb sampleRank 3 10 "missing"
      sampleRank_decreasing (by decide)
      (fun c _ => sampleDb_missing_absent c)⟩

/-- C7 witness: crate 5 has no root module; its cache is empty. -/
theorem no_root_module_empty_cache_witness :
    lang_items_query sampleDb 5 = ⟨[]⟩ :=
  no_root_module_empty_cache sampleDb 5 rfl

/-- C8 witness: fuel 2 (= the depth of `sampleTree`) completes the walk, and
fuel 3 (> rank of crate 10) completes the lookup. -/
theorem recursions_terminate_under_acyclicity_witness :
    collectFuel 2 sampleTree []
        = some (collect_lang_items_recursive sampleTree [])
    ∧ (lang_item_lookup sampleDb 3 10 "owned").isSome = true :=
  ⟨recursions_terminate_under_acyclicity.1 2 sampleTree [] (by decide),
   recursions_terminate_under_acyclicity.2 sampleDb sampleRank
      sampleRank_decreasing 3 10 "owned" (by decide)⟩

/-- C10 witness: erasing every dependency list leaves crate 0's cache
unchanged. -/
theorem cache_depends_only_on_own_tree_witness :
    lang_items_query sampleDb 0 = lang_items_query sampleDbNoDeps 0 :=
  cache_depends_only_on_own_tree sampleDb sampleDbNoDeps 0 rfl

end LangItem
